import Mathlib

/- Verification of the date-pair generation, day/time filtering, stopover
   filtering, ranking and deduplication logic of the flight-search CLI
   (src/flight_search.py), shallowly embedded in Lean.

   Modelling conventions:
   * calendar dates are represented by their proleptic Gregorian ordinals
     (day 1 = 0001-01-01, exactly as Python's `date.toordinal`);
   * timestamps are seconds since 0001-01-01T00:00, so the calendar day of a
     timestamp `t` has ordinal `t / 86400 + 1`, its time of day is
     `t % 86400` seconds, and its weekday follows from ordinal 1 being a
     Monday;
   * times of day (filter bounds) are seconds since midnight;
   * prices, stopover limits and fractional hours are rationals;
   * Python's `float("inf")` stopover limit is `Option.none` (no bound). -/

namespace FlightSearch

/-- Weekday abbreviation of a timestamp, as produced by
`dt.strftime("%a").lower()[:3]` (flight_search.py:286): ordinal day 1
(0001-01-01) is a Monday. -/
def weekdayAbbrev (t : ℕ) : String :=
  (["mon", "tue", "wed", "thu", "fri", "sat", "sun"]).getD (t / 86400 % 7) ""

/-- Time of day of a timestamp in seconds since midnight (`dt.time()`). -/
def timeOfDay (t : ℕ) : ℕ := t % 86400

/-- Hour of day of a timestamp (`dt.hour`). -/
def hourOfDay (t : ℕ) : ℕ := t % 86400 / 3600

/-- Gregorian leap-year test, as in Python's `calendar`/`datetime`. -/
def isLeap (y : ℕ) : Bool := y % 4 == 0 && (y % 100 != 0 || y % 400 == 0)

/-- Days before the first of month `m` in a non-leap year. -/
def daysBeforeMonth (m : ℕ) : ℕ :=
  ([0, 31, 59, 90, 120, 151, 181, 212, 243, 273, 304, 334]).getD (m - 1) 0

/-- Proleptic Gregorian ordinal of the date `y-m-d`, exactly as Python's
`date(y, m, d).toordinal()` computes it. -/
def toOrdinal (y m d : ℕ) : ℕ :=
  365 * (y - 1) + (y - 1) / 4 - (y - 1) / 100 + (y - 1) / 400
    + daysBeforeMonth m + (if 2 < m ∧ isLeap y then 1 else 0) + d

/-- Timestamp of noon on the day with ordinal `o` (the driver's
`d_date + "T12:00:00"` anchor, flight_search.py:324). -/
def noonOf (o : ℕ) : ℕ := (o - 1) * 86400 + 43200

/-- Numeric value of a digit character. -/
def digitVal (c : Char) : ℕ := c.toNat - 48

/-- Value of a string of decimal digits (Python `int`). -/
def natOfDigits (ds : List Char) : ℕ := ds.foldl (fun a c => 10 * a + digitVal c) 0

/-- One optional regex group `(?:(\d+)X)?` at the head of the input: a
non-empty run of digits immediately followed by the character `x` yields the
run's value and the rest; otherwise the group matches nothing and consumes
nothing. -/
def numGroup (x : Char) (cs : List Char) : Option ℕ × List Char :=
  let ds := cs.takeWhile (fun c => c.isDigit)
  match cs.dropWhile (fun c => c.isDigit) with
  | c :: rest => if ds ≠ [] ∧ c = x then (some (natOfDigits ds), rest) else (none, cs)
  | [] => (none, cs)

/-- `iso_duration_to_hm` (flight_search.py:39-44): `re.match` of
`PT(?:(\d+)H)?(?:(\d+)M)?` with missing groups defaulting to 0.  A string not
starting with `PT` makes `re.match` return `None` (the source would then fail
on `m.group`), modelled by `Option.none`. -/
def iso_duration_to_hm (duration : String) : Option (ℕ × ℕ) :=
  match duration.data with
  | 'P' :: 'T' :: rest =>
    let hr := numGroup 'H' rest
    let mr := numGroup 'M' hr.2
    some (hr.1.getD 0, mr.1.getD 0)
  | _ => none

/-- `hm_to_hours` (flight_search.py:47-48). -/
def hm_to_hours (hours minutes : ℕ) : ℚ := (hours : ℚ) + (minutes : ℚ) / 60

/-- A well-formed `--max-stay` token: either a single integer or an inclusive
`A-B` range (flight_search.py:226-241). -/
inductive StayToken where
  | single (n : ℕ)
  | range (a b : ℕ)
deriving DecidableEq

/-- The night-counts denoted by one stay token; an `A-B` range contributes
`range(A, B+1)`, i.e. the inclusive interval `[A, B]`. -/
def stayTokenVals : StayToken → List ℕ
  | .single n => [n]
  | .range a b => List.range' a (b + 1 - a)

/-- `expand_stay_durations` (flight_search.py:226-241): all denoted integers
are accumulated into a set and returned sorted.  `sorted` over a Python set is
the unique strictly-increasing enumeration of its members, modelled by a
stable sort of the deduplicated accumulation. -/
def expand_stay_durations (tokens : List StayToken) : List ℕ :=
  List.insertionSort (· ≤ ·) (tokens.flatMap stayTokenVals).dedup

/-- `time_in_window` (flight_search.py:74-80).  `t` is a time of day in
seconds; an absent bound accepts any time; `start > end` is the over-midnight
case. -/
def time_in_window (t : ℕ) (s e : Option ℕ) : Bool :=
  match s, e with
  | some s, some e =>
    if s ≤ e then decide (s ≤ t ∧ t ≤ e) else decide (t ≥ s ∨ t ≤ e)
  | _, _ => true

/-- A day/time filter map as built by `parse_day_time_filters`
(flight_search.py:51-71): weekday abbreviation to optional (start, end)
bounds. -/
def DayFilter : Type := List (String × (Option ℕ × Option ℕ))

/-- `day_period` (flight_search.py:83-85). -/
def day_period (hour : ℕ) : String := if 6 ≤ hour ∧ hour < 22 then "day" else "night"

/-- A flight segment: departure/arrival airport codes and timestamps. -/
structure Segment where
  depCode : String
  depAt : ℕ
  arrCode : String
  arrAt : ℕ
deriving DecidableEq, Inhabited

/-- An itinerary: one leg's ISO-duration string and ordered segments. -/
structure Itinerary where
  duration : String
  segments : List Segment
deriving DecidableEq, Inhabited

/-- An offer as consumed by the filtering/ranking code: total price and one
(one-way) or two (outbound, inbound) itineraries. -/
structure Offer where
  price : ℚ
  itineraries : List Itinerary
deriving DecidableEq, Inhabited

/-- The leg kinds distinguished by the stopover configuration
(`"departure"` and `"return"` in the source). -/
inductive LegKind where
  | departure
  | ret
deriving DecidableEq

/-- Modelled from the spec: `parse_range_length` is invoked by
`make_date_pairs` (flight_search.py:251) but its definition is absent from the
repository sources.  Per spec section 4.1 it parses a window length from
tokens like "N weeks"/"N days"/combinations into a total number of days; a
token is modelled as a count paired with its unit. -/
inductive RangeUnit where
  | weeks
  | days
deriving DecidableEq

/-- Modelled from the spec: total day count of a rolling-window length token
list, "N weeks" contributing `7*N` days and "N days" contributing `N`. -/
def parse_range_length (tokens : List (ℕ × RangeUnit)) : ℕ :=
  tokens.foldl (fun acc t => acc + t.1 * (match t.2 with | .weeks => 7 | .days => 1)) 0

/-- The CLI-derived configuration consumed by the search/filter code
(the `ARGS` globals of flight_search.py). -/
structure Config where
  oneWay : Bool := false
  allowDifferentReturnAirport : Bool := false
  maxStops : Option ℤ := some 1
  maxDepartureStopover : List ℚ := []
  maxReturnStopover : List ℚ := []
  filterDepartDaysTime : DayFilter := []
  filterReturnDaysTime : DayFilter := []
  depart : Option ℕ := none
  ret : Option ℕ := none
  departStart : Option ℕ := none
  departEnd : Option ℕ := none
  returnStart : Option ℕ := none
  returnEnd : Option ℕ := none
  maxStay : List StayToken := []
  rangeLength : Option (List (ℕ × RangeUnit)) := none
  rangeStart : Option ℕ := none

/-- `depart_ok` (flight_search.py:282-290). -/
def depart_ok (cfg : Config) (dep : ℕ) : Bool :=
  if cfg.filterDepartDaysTime.isEmpty then true
  else
    match cfg.filterDepartDaysTime.lookup (weekdayAbbrev dep) with
    | none => false
    | some se => time_in_window (timeOfDay dep) se.1 se.2

/-- `return_ok` (flight_search.py:292-300). -/
def return_ok (cfg : Config) (dep : ℕ) : Bool :=
  if cfg.filterReturnDaysTime.isEmpty then true
  else
    match cfg.filterReturnDaysTime.lookup (weekdayAbbrev dep) with
    | none => false
    | some se => time_in_window (timeOfDay dep) se.1 se.2

/-- `stop_limits` (flight_search.py:303-310); `none` models the
`float("inf")` returned when no values are configured. -/
def stop_limits (cfg : Config) (kind : LegKind) (hour : ℕ) : Option ℚ :=
  let values := match kind with
    | .departure => cfg.maxDepartureStopover
    | .ret => cfg.maxReturnStopover
  match values with
  | [] => none
  | [v] => some v
  | v₀ :: v₁ :: _ => some (if day_period hour = "day" then v₀ else v₁)

/-- `hours_between` (flight_search.py:107-110): absolute difference of two
timestamps in fractional hours. -/
def hours_between (dt1 dt2 : ℕ) : ℚ := ((((dt2 : ℤ) - (dt1 : ℤ)).natAbs : ℚ)) / 3600

/-- `stopovers_ok` (flight_search.py:473-483): every consecutive-segment wait
is checked against the limit selected by the previous segment's arrival hour,
and (inside the same loop) the connection count against the global
`max_stops` bound. -/
def stopovers_ok (cfg : Config) (itinerary : Itinerary) (kind : LegKind) : Bool :=
  let segs := itinerary.segments
  (segs.zip segs.tail).all fun pn =>
    let wait_hr := hours_between pn.1.arrAt pn.2.depAt
    let limit := stop_limits cfg kind (hourOfDay pn.1.arrAt)
    !((match limit with | none => false | some l => decide (l < wait_hr)) ||
      (match cfg.maxStops with | none => false | some ms => decide (ms < (segs.length : ℤ) - 1)))

/-- The four `--sort-by` keys (flight_search.py:211-213). -/
inductive SortKey where
  | price
  | departure_date
  | duration
  | return_date
deriving DecidableEq

/-- The composite sort key of an offer (`key_fn`, flight_search.py:89-103),
with every component mapped into `ℚ` (timestamps compare identically to their
numeric embeddings, so the tuple order is preserved). -/
def offerKey (sortKeys : List SortKey) (offer : Offer) : List ℚ :=
  let itin := offer.itineraries.headI
  let dep := itin.segments.headI.depAt
  let ret := (offer.itineraries.getLastI).segments.getLastI.arrAt
  let hm := (iso_duration_to_hm itin.duration).getD (0, 0)
  sortKeys.map fun k =>
    match k with
    | .price => offer.price
    | .departure_date => (dep : ℚ)
    | .duration => hm_to_hours hm.1 hm.2
    | .return_date => (ret : ℚ)

/-- Lexicographic comparison of equal-length key tuples, as Python compares
the tuples produced by `key_fn`. -/
def lexLe : List ℚ → List ℚ → Bool
  | [], _ => true
  | _ :: _, [] => false
  | a :: as, b :: bs => if a < b then true else if b < a then false else lexLe as bs

/-- `sort_offers` (flight_search.py:88-104): Python's `sorted` is a stable
sort by the composite key, modelled by the (stable) insertion sort on the
key order. -/
def sort_offers (offers : List Offer) (sort_keys : List SortKey) : List Offer :=
  List.insertionSort (fun a b => lexLe (offerKey sort_keys a) (offerKey sort_keys b) = true) offers

/-- The body of the Range+Stay `while start <= end` loop of `make_date_pairs`
(flight_search.py:257-268), recursing on the number of remaining departure
days. -/
def rangeStayLoop (stays : List ℕ) (rs re : Option ℕ) : ℕ → ℕ → List (ℕ × ℕ) → List (ℕ × ℕ)
  | 0, _, pairs => pairs
  | fuel + 1, start, pairs =>
    rangeStayLoop stays rs re fuel (start + 1)
      (stays.foldl (fun acc stay =>
        let ret := start + stay
        if (match rs with | some v => decide (ret < v) | none => false) then acc
        else if (match re with | some v => decide (v < ret) | none => false) then acc
        else acc ++ [(start, ret)]) pairs)

/-- `make_date_pairs` (flight_search.py:244-273); `today` is the
`datetime.today().date()` default anchor, and `none` models the `sys.exit`
taken when no date mode matches. -/
def make_date_pairs (cfg : Config) (today : ℕ) : Option (List (ℕ × ℕ)) :=
  let stays := expand_stay_durations cfg.maxStay
  if cfg.rangeLength.isSome ∧ stays ≠ [] then
    let base := cfg.rangeStart.getD today
    let total_days := parse_range_length (cfg.rangeLength.getD [])
    some ((List.range total_days).foldl (fun pairs offset =>
      stays.foldl (fun acc stay => acc ++ [(base + offset, base + offset + stay)]) pairs) [])
  else if cfg.departStart.isSome ∧ cfg.departEnd.isSome ∧ stays ≠ [] then
    let s := cfg.departStart.getD 0
    let e := cfg.departEnd.getD 0
    some (rangeStayLoop stays cfg.returnStart cfg.returnEnd (e + 1 - s) s [])
  else
    match cfg.depart, cfg.ret with
    | some d, some r => some [(d, r)]
    | _, _ => none

/-- The driver's pre-query day/time check on a candidate date pair
(flight_search.py:322-327): departure is checked at a noon anchor, and the
return check is short-circuited away in one-way mode. -/
def preQueryOk (cfg : Config) (d r : ℕ) : Bool :=
  depart_ok cfg (noonOf d) && (cfg.oneWay || return_ok cfg (noonOf r))

/-- The deduplication key of `display_offers` (flight_search.py:427-428):
outbound departure timestamp, inbound departure timestamp (or the `None`
absence marker in one-way mode), and price. -/
def offerSeenKey (cfg : Config) (offer : Offer) : ℕ × Option ℕ × ℚ :=
  let dep_seg := offer.itineraries.headI.segments.headI
  let ret_seg := if cfg.oneWay then none else some (offer.itineraries.getLastI.segments.headI)
  (dep_seg.depAt, ret_seg.map (·.depAt), offer.price)

/-- The per-offer filter chain of `display_offers` (flight_search.py:388-425):
outbound day/time check, then (round-trip only) the same-arrival-airport check
and the inbound day/time check, then both stopover checks. -/
def displayPass (cfg : Config) (offer : Offer) : Bool :=
  let to_itin := offer.itineraries.headI
  let from_itin := offer.itineraries.getLastI
  depart_ok cfg to_itin.segments.headI.depAt &&
    (cfg.oneWay ||
      ((cfg.allowDifferentReturnAirport ||
          to_itin.segments.getLastI.arrCode == from_itin.segments.getLastI.arrCode) &&
        return_ok cfg from_itin.segments.headI.depAt)) &&
    stopovers_ok cfg to_itin .departure &&
    stopovers_ok cfg from_itin .ret

/-- The offer loop of `display_offers` with its running `seen` set. -/
def displayLoop (cfg : Config) : List Offer → List (ℕ × Option ℕ × ℚ) → List Offer
  | [], _ => []
  | offer :: rest, seen =>
    if displayPass cfg offer then
      if offerSeenKey cfg offer ∈ seen then displayLoop cfg rest seen
      else offer :: displayLoop cfg rest (offerSeenKey cfg offer :: seen)
    else displayLoop cfg rest seen

/-- `display_offers` (flight_search.py:381-470), as the list of offers that
get rendered: `seen` starts empty on every call (flight_search.py:382). -/
def display_offers (cfg : Config) (offers : List Offer) : List Offer :=
  displayLoop cfg offers []

/-- A sequence of presentation calls: each call renders its own offer list
with a freshly initialised `seen` set. -/
def presentation_calls (cfg : Config) (calls : List (List Offer)) : List (List Offer) :=
  calls.map fun call => display_offers cfg call

/-- Spec wording for the optional return window of Range+Stay mode: the
candidate return date must not fall before `return-start` nor after
`return-end`, either bound being optional. -/
def inReturnWindow (rs re : Option ℕ) (r : ℕ) : Bool :=
  (match rs with | some v => decide (v ≤ r) | none => true) &&
  (match re with | some v => decide (r ≤ v) | none => true)

/-- Spec wording for Rolling Window+Stay output: for every offset in
`[0, totalDays)` (outer, ascending) and every stay (inner, in the given
order), the pair `(anchor+offset, anchor+offset+stay)`. -/
def rollingSpecPairs (anchor totalDays : ℕ) (stays : List ℕ) : List (ℕ × ℕ) :=
  (List.range totalDays).flatMap fun offset =>
    stays.map fun stay => (anchor + offset, anchor + offset + stay)

/-- Spec wording for Range+Stay output: for every departure day `s+i` in
`[s, e]` (outer, ascending) and every stay (inner, in the given order), the
pair `(s+i, s+i+stay)`, silently dropped when the return date falls outside
the optional return window. -/
def rangeStaySpecPairs (s e : ℕ) (stays : List ℕ) (rs re : Option ℕ) : List (ℕ × ℕ) :=
  (List.range (e + 1 - s)).flatMap fun i =>
    stays.filterMap fun stay =>
      if inReturnWindow rs re (s + i + stay) then some (s + i, s + i + stay) else none

/-- The Range+Stay pairs contributed by the single departure day `d`. -/
def dayStayPairs (stays : List ℕ) (rs re : Option ℕ) (d : ℕ) : List (ℕ × ℕ) :=
  stays.filterMap fun stay =>
    if inReturnWindow rs re (d + stay) then some (d, d + stay) else none

/-- The stopover values configured for one leg kind. -/
def legStopValues (cfg : Config) (kind : LegKind) : List ℚ :=
  match kind with
  | .departure => cfg.maxDepartureStopover
  | .ret => cfg.maxReturnStopover

/-- Spec wording for the per-connection wait limit: two configured values
give a day limit (local hour in `[6, 22)`) and a night limit, one value
applies at every hour, no value means unbounded. -/
def specStopLimit (values : List ℚ) (hour : ℕ) : Option ℚ :=
  match values with
  | [] => none
  | [v] => some v
  | v₀ :: v₁ :: _ => some (if 6 ≤ hour ∧ hour < 22 then v₀ else v₁)

/-- One connection's wait is within the limit selected by its hour (a wait
exactly equal to the limit is acceptable; no limit accepts any wait). -/
def waitWithinLimit (cfg : Config) (kind : LegKind) (p n : Segment) : Prop :=
  match specStopLimit (legStopValues cfg kind) (hourOfDay p.arrAt) with
  | none => True
  | some l => hours_between p.arrAt n.depAt ≤ l

/-- The stopover acceptance condition exactly as the claim states it: every
wait within its limit, and the connection count (segment count − 1) not
strictly above the global max-stops bound, unconditionally. -/
def statedStopSpec (cfg : Config) (itin : Itinerary) (kind : LegKind) : Prop :=
  (∀ pn ∈ itin.segments.zip itin.segments.tail, waitWithinLimit cfg kind pn.1 pn.2) ∧
  (match cfg.maxStops with
   | none => True
   | some ms => (itin.segments.length : ℤ) - 1 ≤ ms)

/-- The stopover acceptance condition as amended: the connection-count bound
is only enforced when the itinerary has at least two segments (the source
checks it inside the loop over consecutive segment pairs). -/
def amendedStopSpec (cfg : Config) (itin : Itinerary) (kind : LegKind) : Prop :=
  (∀ pn ∈ itin.segments.zip itin.segments.tail, waitWithinLimit cfg kind pn.1 pn.2) ∧
  (2 ≤ itin.segments.length →
    match cfg.maxStops with
    | none => True
    | some ms => (itin.segments.length : ℤ) - 1 ≤ ms)

/-- Spec wording of the day/time filter decision for one timestamp against
one filter map (spec section 4.2). -/
def allowedSpec (m : DayFilter) (t : ℕ) : Prop :=
  m = [] ∨
  ∃ se, m.lookup (weekdayAbbrev t) = some se ∧
    (se.1 = none ∨ se.2 = none ∨
     ∃ s e, se.1 = some s ∧ se.2 = some e ∧
       (if s ≤ e then s ≤ timeOfDay t ∧ timeOfDay t ≤ e
        else (s ≤ timeOfDay t ∧ timeOfDay t < 86400) ∨ timeOfDay t ≤ e))

/-- A single flight segment used by the concrete examples. -/
def exSeg : Segment := { depCode := "AAA", depAt := 1000, arrCode := "BBB", arrAt := 2000 }

/-- Concrete single-segment itinerary. -/
def exItin1 : Itinerary := { duration := "PT5H", segments := [exSeg] }

/-- Configuration with a negative global max-stops bound (`--max-stops -1`). -/
def exCfgNeg : Config := { maxStops := some (-1) }

/-- Equal-price offers that differ only in duration (5h vs 3h). -/
def exOfferA : Offer := { price := 100, itineraries := [{ duration := "PT5H", segments := [exSeg] }] }

/-- See `exOfferA`. -/
def exOfferB : Offer := { price := 100, itineraries := [{ duration := "PT3H", segments := [exSeg] }] }

/-- Offers with identical composite sort key but distinct payloads. -/
def exOfferC : Offer := { price := 100, itineraries := [{ duration := "PT5H", segments := [{ depCode := "CCC", depAt := 1000, arrCode := "BBB", arrAt := 2000 }] }] }

/-- See `exOfferC`. -/
def exOfferD : Offer := { price := 100, itineraries := [{ duration := "PT5H", segments := [{ depCode := "DDD", depAt := 1000, arrCode := "BBB", arrAt := 2000 }] }] }

/-- Rolling-window example configuration: anchor 2025-06-01, window "1 week 3
days", stays {3, 5}. -/
def exCfgRolling : Config :=
  { rangeStart := some (toOrdinal 2025 6 1)
    rangeLength := some [(1, RangeUnit.weeks), (3, RangeUnit.days)]
    maxStay := [.single 3, .single 5] }

/-- Range+Stay example configuration of the claim: departures 2025-06-01 to
2025-06-02, stays {3, 5}. -/
def exCfgRange : Config :=
  { departStart := some (toOrdinal 2025 6 1)
    departEnd := some (toOrdinal 2025 6 2)
    maxStay := [.single 3, .single 5] }

/-- Day/time filter of the claim's example: Tuesday 22:00-02:00 (79200 and
7200 seconds since midnight). -/
def exNightFilter : DayFilter := [("tue", (some 79200, some 7200))]

/-- A configuration whose departure filter is the overnight Tuesday window. -/
def exCfgNight : Config := { filterDepartDaysTime := exNightFilter }

/-- Tuesday 2025-06-03 at 23:30. -/
def exTue2330 : ℕ := (toOrdinal 2025 6 3 - 1) * 86400 + 23 * 3600 + 30 * 60

/-- Tuesday 2025-06-03 at 01:00. -/
def exTue0100 : ℕ := (toOrdinal 2025 6 3 - 1) * 86400 + 3600

/-- Tuesday 2025-06-03 at 10:00. -/
def exTue1000 : ℕ := (toOrdinal 2025 6 3 - 1) * 86400 + 10 * 3600

/-- One-way example configuration with stopover limits configured. -/
def exCfgOneWay : Config := { oneWay := true, maxStops := some 2, maxReturnStopover := [4] }

/-- Two distinct return-day filter maps for the one-way independence check. -/
def exRetFilterF : DayFilter := [("sat", (none, none))]

/-- See `exRetFilterF`. -/
def exRetFilterG : DayFilter := [("sun", (some 21600, some 43200))]

/-- A one-way offer (a single itinerary). -/
def exOneWayOffer : Offer := { price := 50, itineraries := [exItin1] }

/-- Round-trip configuration for the deduplication example. -/
def exCfgDedup : Config := { allowDifferentReturnAirport := true }

/-- Round-trip offer: outbound and inbound single-segment itineraries. -/
def exRtOffer : Offer :=
  { price := 80
    itineraries :=
      [{ duration := "PT2H", segments := [{ depCode := "AAA", depAt := 5000, arrCode := "BBB", arrAt := 9000 }] },
       { duration := "PT2H", segments := [{ depCode := "BBB", depAt := 90000, arrCode := "AAA", arrAt := 95000 }] }] }

/-- Same deduplication key as `exRtOffer` (same departure instants and price)
but a different duration payload. -/
def exRtOfferDup : Offer :=
  { price := 80
    itineraries :=
      [{ duration := "PT3H", segments := [{ depCode := "AAA", depAt := 5000, arrCode := "BBB", arrAt := 9000 }] },
       { duration := "PT3H", segments := [{ depCode := "BBB", depAt := 90000, arrCode := "AAA", arrAt := 95000 }] }] }

/-- A round-trip offer with a different deduplication key (different price). -/
def exRtOffer2 : Offer :=
  { price := 90
    itineraries :=
      [{ duration := "PT2H", segments := [{ depCode := "AAA", depAt := 5000, arrCode := "BBB", arrAt := 9000 }] },
       { duration := "PT2H", segments := [{ depCode := "BBB", depAt := 90000, arrCode := "AAA", arrAt := 95000 }] }] }

/-- Offer list with a duplicated key in the middle. -/
def exDedupOffers : List Offer := [exRtOffer, exRtOfferDup, exRtOffer2]

theorem foldl_append_flatMap {α β : Type} (f : α → List β) :
    ∀ (l : List α) (init : List β),
      l.foldl (fun acc x => acc ++ f x) init = init ++ l.flatMap f := by
  intro l
  induction l with
  | nil => intro init; simp
  | cons x l ih => intro init; simp [ih, List.append_assoc]

theorem mem_expand_stay_durations (toks : List StayToken) (n : ℕ) :
    n ∈ expand_stay_durations toks ↔ ∃ t ∈ toks, n ∈ stayTokenVals t := by
  unfold expand_stay_durations
  rw [List.mem_insertionSort, List.mem_dedup, List.mem_flatMap]

theorem expand_stay_durations_pairwise (toks : List StayToken) :
    (expand_stay_durations toks).Pairwise (· < ·) := by
  have hs : (expand_stay_durations toks).Pairwise (· ≤ ·) :=
    List.sorted_insertionSort (· ≤ ·) ((toks.flatMap stayTokenVals).dedup)
  have hn : (expand_stay_durations toks).Nodup := by
    unfold expand_stay_durations
    exact (List.perm_insertionSort _ _).nodup_iff.mpr (List.nodup_dedup _)
  exact (hs.and hn).imp fun h => lt_of_le_of_ne h.1 h.2

theorem expand_stay_durations_ext {t₁ t₂ : List StayToken}
    (h : ∀ n : ℕ, n ∈ expand_stay_durations t₁ ↔ n ∈ expand_stay_durations t₂) :
    expand_stay_durations t₁ = expand_stay_durations t₂ := by
  have hp : List.Perm (expand_stay_durations t₁) (expand_stay_durations t₂) := by
    refine (List.perm_ext_iff_of_nodup ?_ ?_).mpr h
    · exact (expand_stay_durations_pairwise t₁).imp fun hlt => ne_of_lt hlt
    · exact (expand_stay_durations_pairwise t₂).imp fun hlt => ne_of_lt hlt
  exact List.eq_of_perm_of_sorted hp
    (List.sorted_insertionSort (· ≤ ·) _) (List.sorted_insertionSort (· ≤ ·) _)

/-- C7: stay-length token expansion yields the sorted (strictly increasing,
so duplicate-free) list of the union of the integers denoted by the tokens,
is invariant under permutation and duplication of the tokens, and in
particular maps both example token lists to `[3, 4, 7, 9, 10]`. -/
theorem expand_stay_durations_spec :
    (∀ (toks : List StayToken) (n : ℕ),
      n ∈ expand_stay_durations toks ↔ ∃ t ∈ toks, n ∈ stayTokenVals t)
    ∧ (∀ toks : List StayToken, (expand_stay_durations toks).Pairwise (· < ·))
    ∧ (∀ t₁ t₂ : List StayToken, t₁.toFinset = t₂.toFinset →
        expand_stay_durations t₁ = expand_stay_durations t₂)
    ∧ expand_stay_durations [.range 3 4, .single 7, .range 9 10] = [3, 4, 7, 9, 10]
    ∧ expand_stay_durations [.range 9 10, .range 3 4, .single 7] = [3, 4, 7, 9, 10] := by
  refine ⟨mem_expand_stay_durations, expand_stay_durations_pairwise, ?_, by decide, by decide⟩
  intro t₁ t₂ h
  refine expand_stay_durations_ext fun n => ?_
  rw [mem_expand_stay_durations, mem_expand_stay_durations]
  constructor
  · rintro ⟨t, ht, hn⟩
    exact ⟨t, List.mem_toFinset.mp (h ▸ List.mem_toFinset.mpr ht), hn⟩
  · rintro ⟨t, ht, hn⟩
    exact ⟨t, List.mem_toFinset.mp (h ▸ List.mem_toFinset.mpr ht), hn⟩

/-- Witness for C7: the two example token lists are equal as token sets, and
the expansion theorem carries that equality to the expanded stay lists. -/
theorem expand_stay_durations_spec_witness :
    ([StayToken.range 3 4, .single 7, .range 9 10].toFinset
        = [StayToken.range 9 10, .range 3 4, .single 7].toFinset)
    ∧ expand_stay_durations [.range 3 4, .single 7, .range 9 10]
        = expand_stay_durations [.range 9 10, .range 3 4, .single 7] := by
  refine ⟨by decide, expand_stay_durations_spec.2.2.1 _ _ (by decide)⟩

/-- C10: an itinerary with exactly one segment (no connections) passes the
stopover check for either leg kind, whatever the configured limits and
whatever the global max-stops value, because the loop over consecutive
segment pairs is empty. -/
theorem stopovers_ok_single_segment (cfg : Config) (itin : Itinerary) (kind : LegKind)
    (h : itin.segments.length = 1) : stopovers_ok cfg itin kind = true := by
  obtain ⟨s, hs⟩ := List.length_eq_one.mp h
  simp [stopovers_ok, hs]

/-- Witness for C10: a concrete single-segment itinerary passes for both leg
kinds under a configuration with stopover limits and a negative max-stops
bound. -/
theorem stopovers_ok_single_segment_witness :
    exItin1.segments.length = 1
    ∧ exCfgNeg.maxStops = some (-1)
    ∧ stopovers_ok exCfgNeg exItin1 .departure = true
    ∧ stopovers_ok exCfgNeg exItin1 .ret = true :=
  ⟨rfl, rfl, stopovers_ok_single_segment exCfgNeg exItin1 .departure rfl,
    stopovers_ok_single_segment exCfgNeg exItin1 .ret rfl⟩

theorem specStopLimit_day_period (vs : List ℚ) (hour : ℕ) :
    (match vs with
      | [] => (none : Option ℚ)
      | [v] => some v
      | v₀ :: v₁ :: _ => some (if day_period hour = "day" then v₀ else v₁))
      = specStopLimit vs hour := by
  match vs with
  | [] => rfl
  | [v] => rfl
  | v₀ :: v₁ :: rest =>
    by_cases h : 6 ≤ hour ∧ hour < 22 <;> simp [specStopLimit, day_period, h]

theorem stop_limits_eq_spec (cfg : Config) (kind : LegKind) (hour : ℕ) :
    stop_limits cfg kind hour = specStopLimit (legStopValues cfg kind) hour := by
  cases kind <;> exact specStopLimit_day_period _ hour

theorem zip_tail_eq_nil_iff (segs : List Segment) :
    segs.zip segs.tail = [] ↔ segs.length ≤ 1 := by
  match segs with
  | [] => simp
  | [s] => simp
  | s₁ :: s₂ :: r => simp [List.zip]

theorem stopovers_ok_iff_aux (cfg : Config) (itin : Itinerary) (kind : LegKind) :
    stopovers_ok cfg itin kind = true ↔
      (∀ pn ∈ itin.segments.zip itin.segments.tail, waitWithinLimit cfg kind pn.1 pn.2) ∧
      (itin.segments.zip itin.segments.tail = [] ∨
        (match cfg.maxStops with
         | none => True
         | some ms => (itin.segments.length : ℤ) - 1 ≤ ms)) := by
  unfold stopovers_ok
  rw [List.all_eq_true]
  constructor
  · intro H
    constructor
    · intro pn hpn
      have h := H pn hpn
      rw [Bool.not_eq_eq_eq_not, Bool.not_true, Bool.or_eq_false_iff] at h
      unfold waitWithinLimit
      rw [← stop_limits_eq_spec]
      cases hl : stop_limits cfg kind (hourOfDay pn.1.arrAt) with
      | none => trivial
      | some l =>
        have h1 := h.1
        rw [hl, decide_eq_false_iff_not, not_lt] at h1
        exact h1
    · cases hz : itin.segments.zip itin.segments.tail with
      | nil => exact Or.inl rfl
      | cons hd tl =>
        refine Or.inr ?_
        have h := H hd (hz ▸ List.mem_cons_self hd tl)
        rw [Bool.not_eq_eq_eq_not, Bool.not_true, Bool.or_eq_false_iff] at h
        have h2 := h.2
        cases hms : cfg.maxStops with
        | none => trivial
        | some ms =>
          rw [hms, decide_eq_false_iff_not, not_lt] at h2
          exact h2
  · rintro ⟨Hw, Hs⟩ pn hpn
    rw [Bool.not_eq_eq_eq_not, Bool.not_true, Bool.or_eq_false_iff]
    constructor
    · have hw := Hw pn hpn
      unfold waitWithinLimit at hw
      rw [← stop_limits_eq_spec] at hw
      cases hl : stop_limits cfg kind (hourOfDay pn.1.arrAt) with
      | none => rfl
      | some l =>
        rw [hl] at hw
        simpa [decide_eq_false_iff_not, not_lt] using hw
    · have hne : itin.segments.zip itin.segments.tail ≠ [] :=
        List.ne_nil_of_mem hpn
      have hq := Hs.resolve_left hne
      cases hms : cfg.maxStops with
      | none => rfl
      | some ms =>
        rw [hms] at hq
        simpa [decide_eq_false_iff_not, not_lt] using hq

/-- C3 counterexample: with `--max-stops -1` and a single-segment itinerary,
the code accepts (the connection-count bound is only tested inside the loop
over consecutive segment pairs, which is empty), while the claim's stated
acceptance condition, which checks the connection count unconditionally,
rejects. -/
theorem stopovers_claim_counterexample :
    stopovers_ok exCfgNeg exItin1 .departure = true
    ∧ ¬ statedStopSpec exCfgNeg exItin1 .departure := by
  constructor
  · rfl
  · intro h
    have h2 := h.2
    simp only [statedStopSpec, exCfgNeg, exItin1, exSeg] at h2
    norm_num at h2

/-- C3 (amended): the per-connection limit is selected from the leg's
configured values by the connection hour (two values: day `[6,22)` limit
then night limit; one value: at every hour; none: unbounded), and an
itinerary passes the stopover check if and only if every consecutive-segment
wait is within (equality allowed) the limit selected by its hour and, when
the itinerary has at least two segments, the connection count (segment
count − 1) does not strictly exceed the global max-stops bound; itineraries
with fewer than two segments are exempt from the connection-count bound. -/
theorem stopovers_ok_spec (cfg : Config) (itin : Itinerary) (kind : LegKind) :
    (∀ hour, stop_limits cfg kind hour = specStopLimit (legStopValues cfg kind) hour)
    ∧ (stopovers_ok cfg itin kind = true ↔ amendedStopSpec cfg itin kind) := by
  refine ⟨fun hour => stop_limits_eq_spec cfg kind hour, ?_⟩
  rw [stopovers_ok_iff_aux]
  unfold amendedStopSpec
  constructor
  · rintro ⟨hw, hs⟩
    refine ⟨hw, fun hlen => ?_⟩
    refine hs.resolve_left ?_
    rw [zip_tail_eq_nil_iff]
    omega
  · rintro ⟨hw, hs⟩
    refine ⟨hw, ?_⟩
    by_cases hz : itin.segments.zip itin.segments.tail = []
    · exact Or.inl hz
    · refine Or.inr (hs ?_)
      rw [zip_tail_eq_nil_iff] at hz
      omega

/-- Witness for C3: a two-segment itinerary with a 1.5-hour daytime wait is
accepted exactly when the day limit is at least 1.5 (the amended acceptance
condition evaluates accordingly at both a passing and a failing limit). -/
theorem stopovers_ok_spec_witness :
    stop_limits exCfgNeg .departure 8 = specStopLimit (legStopValues exCfgNeg .departure) 8
    ∧ (stopovers_ok exCfgNeg exItin1 .departure = true ↔ amendedStopSpec exCfgNeg exItin1 .departure) :=
  ⟨(stopovers_ok_spec exCfgNeg exItin1 .departure).1 8,
    (stopovers_ok_spec exCfgNeg exItin1 .departure).2⟩

theorem lexLe_refl : ∀ l : List ℚ, lexLe l l = true
  | [] => rfl
  | a :: l => by simp [lexLe, lt_irrefl, lexLe_refl l]

/-- C6 counterexample: two distinct offers with the same price but different
durations (5h vs 3h) are reordered by the `["price","duration"]` ranking
(the longer one moves behind the shorter one), so equal-price offers do not
retain their input order regardless of duration. -/
theorem sort_offers_price_tie_counterexample :
    exOfferA.price = exOfferB.price
    ∧ exOfferA ≠ exOfferB
    ∧ sort_offers [exOfferA, exOfferB] [SortKey.price, SortKey.duration] = [exOfferB, exOfferA] := by
  refine ⟨rfl, by decide, ?_⟩
  have hk : lexLe (offerKey [SortKey.price, SortKey.duration] exOfferA)
      (offerKey [SortKey.price, SortKey.duration] exOfferB) = false := by
    have hA : offerKey [SortKey.price, SortKey.duration] exOfferA
        = [100, hm_to_hours 5 0] := rfl
    have hB : offerKey [SortKey.price, SortKey.duration] exOfferB
        = [100, hm_to_hours 3 0] := rfl
    rw [hA, hB]
    norm_num [lexLe, hm_to_hours]
  simp [sort_offers, List.insertionSort, List.orderedInsert, hk]

/-- C6 (amended): ranking any offer list by a key list is stable for offers
whose composite sort keys are fully equal (for `["price","duration"]`:
identical price and identical duration): such pairs retain their relative
input order. -/
theorem sort_offers_stable (ks : List SortKey) (l : List Offer) (a b : Offer)
    (hk : offerKey ks a = offerKey ks b) (hab : List.Sublist [a, b] l) :
    List.Sublist [a, b] (sort_offers l ks) := by
  unfold sort_offers
  exact List.pair_sublist_insertionSort (by rw [hk]; exact lexLe_refl _) hab

/-- Witness for C6: two offers with identical price and duration but distinct
payloads keep their relative order through the ranking. -/
theorem sort_offers_stable_witness :
    offerKey [SortKey.price, SortKey.duration] exOfferC
        = offerKey [SortKey.price, SortKey.duration] exOfferD
    ∧ List.Sublist [exOfferC, exOfferD]
        (sort_offers [exOfferC, exOfferD] [SortKey.price, SortKey.duration]) :=
  ⟨rfl, sort_offers_stable _ _ _ _ rfl (List.Sublist.refl _)⟩

theorem takeWhile_digit_prefix (ds : List Char) (c : Char) (rest : List Char)
    (hd : ∀ x ∈ ds, x.isDigit = true) (hc : c.isDigit = false) :
    (ds ++ c :: rest).takeWhile (fun x => x.isDigit) = ds
    ∧ (ds ++ c :: rest).dropWhile (fun x => x.isDigit) = c :: rest := by
  induction ds with
  | nil => simp [List.takeWhile_cons, List.dropWhile_cons, hc]
  | cons d ds ih =>
    have hdd : d.isDigit = true := hd d (List.mem_cons_self _ _)
    have ih' := ih fun x hx => hd x (List.mem_cons_of_mem _ hx)
    simp [List.takeWhile_cons, List.dropWhile_cons, hdd, ih'.1, ih'.2]

theorem numGroup_match (x : Char) (ds rest : List Char) (hne : ds ≠ [])
    (hd : ∀ c ∈ ds, c.isDigit = true) (hx : x.isDigit = false) :
    numGroup x (ds ++ x :: rest) = (some (natOfDigits ds), rest) := by
  obtain ⟨ht, hdr⟩ := takeWhile_digit_prefix ds x rest hd hx
  unfold numGroup
  rw [ht, hdr]
  simp [hne]

theorem numGroup_no_match (x : Char) (ds : List Char) (c : Char) (rest : List Char)
    (hd : ∀ y ∈ ds, y.isDigit = true) (hcd : c.isDigit = false) (hcx : c ≠ x) :
    numGroup x (ds ++ c :: rest) = (none, ds ++ c :: rest) := by
  obtain ⟨ht, hdr⟩ := takeWhile_digit_prefix ds c rest hd hcd
  unfold numGroup
  rw [ht, hdr]
  simp [hcx]

theorem iso_duration_to_hm_PT (L : List Char) :
    iso_duration_to_hm (String.mk ('P' :: 'T' :: L))
      = some (((numGroup 'H' L).1).getD 0, ((numGroup 'M' (numGroup 'H' L).2).1).getD 0) :=
  rfl

/-- C8: for every token of the `PT#H#M` family (`#` a non-empty digit run,
either component optional and defaulting to 0), the duration parser returns
exactly the denoted hour and minute counts, and `hm_to_hours` turns them into
hours + minutes/60 fractional hours. -/
theorem iso_duration_parse (hd md : List Char) (h1 : hd ≠ []) (h2 : md ≠ [])
    (hdig1 : ∀ c ∈ hd, c.isDigit = true) (hdig2 : ∀ c ∈ md, c.isDigit = true) :
    iso_duration_to_hm (String.mk ('P' :: 'T' :: (hd ++ 'H' :: (md ++ ['M']))))
        = some (natOfDigits hd, natOfDigits md)
    ∧ iso_duration_to_hm (String.mk ('P' :: 'T' :: (hd ++ ['H']))) = some (natOfDigits hd, 0)
    ∧ iso_duration_to_hm (String.mk ('P' :: 'T' :: (md ++ ['M']))) = some (0, natOfDigits md)
    ∧ iso_duration_to_hm (String.mk ['P', 'T']) = some (0, 0)
    ∧ ∀ h m : ℕ, hm_to_hours h m = (h : ℚ) + (m : ℚ) / 60 := by
  have hH : ('H' : Char).isDigit = false := by decide
  have hM : ('M' : Char).isDigit = false := by decide
  have hMH : ('M' : Char) ≠ 'H' := by decide
  refine ⟨?_, ?_, ?_, rfl, fun h m => rfl⟩
  · rw [iso_duration_to_hm_PT, numGroup_match 'H' hd _ h1 hdig1 hH,
      numGroup_match 'M' md _ h2 hdig2 hM]
    rfl
  · rw [iso_duration_to_hm_PT, numGroup_match 'H' hd _ h1 hdig1 hH]
    rfl
  · rw [iso_duration_to_hm_PT, numGroup_no_match 'H' md 'M' _ hdig2 hM hMH,
      numGroup_match 'M' md _ h2 hdig2 hM]
    rfl

/-- Witness for C8: the claim's three example tokens parse to (2,30), (0,45)
and (5,0), whose fractional-hour values are 2.5, 0.75 and 5.0. -/
theorem iso_duration_parse_witness :
    iso_duration_to_hm ("PT2H30M") = some (2, 30) ∧ hm_to_hours 2 30 = 5 / 2
    ∧ iso_duration_to_hm ("PT45M") = some (0, 45) ∧ hm_to_hours 0 45 = 3 / 4
    ∧ iso_duration_to_hm ("PT5H") = some (5, 0) ∧ hm_to_hours 5 0 = 5 := by
  have h1 := (iso_duration_parse ['2'] ['3', '0'] (by decide) (by decide)
    (by decide) (by decide)).1
  have h3 := (iso_duration_parse ['9'] ['4', '5'] (by decide) (by decide)
    (by decide) (by decide)).2.2.1
  have h5 := (iso_duration_parse ['5'] ['9'] (by decide) (by decide)
    (by decide) (by decide)).2.1
  exact ⟨h1, by norm_num [hm_to_hours], h3, by norm_num [hm_to_hours],
    h5, by norm_num [hm_to_hours]⟩

theorem foldl_append_map {α β : Type} (g : α → β) (l : List α) (init : List β) :
    l.foldl (fun acc x => acc ++ [g x]) init = init ++ l.map g := by
  induction l generalizing init with
  | nil => simp
  | cons x l ih => simp [ih, List.append_assoc]

theorem foldl_append_toList {α β : Type} (f : α → Option β) (l : List α) (init : List β) :
    l.foldl (fun acc x => acc ++ (f x).toList) init = init ++ l.filterMap f := by
  induction l generalizing init with
  | nil => simp
  | cons x l ih => cases hfx : f x <;> simp [ih, hfx, List.append_assoc]

theorem range_window_item (rs re : Option ℕ) (r : ℕ) (acc : List (ℕ × ℕ)) (p : ℕ × ℕ) :
    (if (match rs with | some v => decide (r < v) | none => false) then acc
     else if (match re with | some v => decide (v < r) | none => false) then acc
     else acc ++ [p])
    = acc ++ (if inReturnWindow rs re r then some p else none).toList := by
  cases rs with
  | none =>
    cases re with
    | none => simp [inReturnWindow]
    | some w =>
      by_cases hw : w < r
      · simp [inReturnWindow, hw, Nat.not_le.mpr hw]
      · simp [inReturnWindow, hw, Nat.not_lt.mp hw]
  | some v =>
    by_cases hv : r < v
    · cases re with
      | none => simp [inReturnWindow, hv, Nat.not_le.mpr hv]
      | some w => simp [inReturnWindow, hv, Nat.not_le.mpr hv]
    · cases re with
      | none => simp [inReturnWindow, hv, Nat.not_lt.mp hv]
      | some w =>
        by_cases hw : w < r
        · simp [inReturnWindow, hv, hw, Nat.not_le.mpr hw]
        · simp [inReturnWindow, hv, Nat.not_lt.mp hv, hw, Nat.not_lt.mp hw]

theorem rangeStayLoop_eq (stays : List ℕ) (rs re : Option ℕ) :
    ∀ (fuel start : ℕ) (init : List (ℕ × ℕ)),
      rangeStayLoop stays rs re fuel start init
        = init ++ (List.range fuel).flatMap (fun i => dayStayPairs stays rs re (start + i)) := by
  intro fuel
  induction fuel with
  | zero => intro start init; simp [rangeStayLoop]
  | succ f ih =>
    intro start init
    rw [rangeStayLoop, ih (start + 1)]
    have hinner : (stays.foldl (fun acc stay =>
        let ret := start + stay
        if (match rs with | some v => decide (ret < v) | none => false) then acc
        else if (match re with | some v => decide (v < ret) | none => false) then acc
        else acc ++ [(start, ret)]) init)
        = init ++ dayStayPairs stays rs re start := by
      have hbody : (fun (acc : List (ℕ × ℕ)) (stay : ℕ) =>
          let ret := start + stay
          if (match rs with | some v => decide (ret < v) | none => false) then acc
          else if (match re with | some v => decide (v < ret) | none => false) then acc
          else acc ++ [(start, ret)])
          = fun acc stay => acc ++
              ((if inReturnWindow rs re (start + stay)
                then some (start, start + stay) else none).toList) := by
        funext acc stay
        exact range_window_item rs re (start + stay) acc _
      rw [hbody, foldl_append_toList]
      rfl
    rw [hinner, List.append_assoc]
    congr 1
    rw [List.range_succ_eq_map]
    have hshift : ∀ i : ℕ, dayStayPairs stays rs re (start + 1 + i)
        = dayStayPairs stays rs re (start + (i + 1)) := by
      intro i
      congr 1
      omega
    simp [List.flatMap_cons, List.flatMap_map, Function.comp, hshift]

/-- C1: in Rolling Window+Stay mode (a window-length token list together with
a non-empty expanded stay set, the anchor defaulting to `today` when no
explicit anchor date is given), `make_date_pairs` returns exactly the pairs
`(anchor+offset, anchor+offset+stay)` for every offset in
`[0, windowLengthDays)` (outer loop, ascending) and every stay of the
expanded stay list (inner loop), the expanded stay list being strictly
ascending. Reliance on `parse_range_length` is spec-modelled, since that
function is absent from the sources. -/
theorem rolling_window_pairs (cfg : Config) (today : ℕ) (toks : List (ℕ × RangeUnit))
    (hrl : cfg.rangeLength = some toks)
    (hne : expand_stay_durations cfg.maxStay ≠ []) :
    make_date_pairs cfg today
      = some (rollingSpecPairs (cfg.rangeStart.getD today) (parse_range_length toks)
          (expand_stay_durations cfg.maxStay))
    ∧ (expand_stay_durations cfg.maxStay).Pairwise (· < ·) := by
  refine ⟨?_, expand_stay_durations_pairwise _⟩
  simp only [make_date_pairs, hrl]
  simp only [Option.isSome_some, true_and, hne, ne_eq, not_false_iff, if_true, Option.getD_some]
  congr 1
  have hinner : ∀ (pairs : List (ℕ × ℕ)) (offset : ℕ),
      ((expand_stay_durations cfg.maxStay).foldl (fun acc stay =>
        acc ++ [(cfg.rangeStart.getD today + offset, cfg.rangeStart.getD today + offset + stay)]) pairs)
      = pairs ++ (expand_stay_durations cfg.maxStay).map
          (fun stay => (cfg.rangeStart.getD today + offset, cfg.rangeStart.getD today + offset + stay)) :=
    fun pairs offset => foldl_append_map _ _ _
  calc (List.range (parse_range_length toks)).foldl
        (fun pairs offset => (expand_stay_durations cfg.maxStay).foldl (fun acc stay =>
          acc ++ [(cfg.rangeStart.getD today + offset, cfg.rangeStart.getD today + offset + stay)]) pairs) []
      = (List.range (parse_range_length toks)).foldl
        (fun pairs offset => pairs ++ (expand_stay_durations cfg.maxStay).map
          (fun stay => (cfg.rangeStart.getD today + offset, cfg.rangeStart.getD today + offset + stay))) [] := by
        congr 1
        funext pairs offset
        exact hinner pairs offset
    _ = rollingSpecPairs (cfg.rangeStart.getD today) (parse_range_length toks)
          (expand_stay_durations cfg.maxStay) := by
        rw [foldl_append_flatMap]
        rfl

/-- Witness for C1: the rolling example configuration (anchor 2025-06-01,
window "1 week 3 days" = 10 days, stays {3,5}) produces exactly the 20
spec-side pairs, the first four being the 2025-06-01 departures with returns
3 and 5 days later and the 2025-06-02 departures likewise. -/
theorem rolling_window_pairs_witness :
    exCfgRolling.rangeLength = some [(1, RangeUnit.weeks), (3, RangeUnit.days)]
    ∧ expand_stay_durations exCfgRolling.maxStay ≠ []
    ∧ make_date_pairs exCfgRolling 0
        = some (rollingSpecPairs (toOrdinal 2025 6 1) 10 [3, 5])
    ∧ (rollingSpecPairs (toOrdinal 2025 6 1) 10 [3, 5]).take 4
        = [(toOrdinal 2025 6 1, toOrdinal 2025 6 4), (toOrdinal 2025 6 1, toOrdinal 2025 6 6),
           (toOrdinal 2025 6 2, toOrdinal 2025 6 5), (toOrdinal 2025 6 2, toOrdinal 2025 6 7)] := by
  refine ⟨rfl, by decide, ?_, by decide⟩
  have h := (rolling_window_pairs exCfgRolling 0 [(1, RangeUnit.weeks), (3, RangeUnit.days)]
    rfl (by decide)).1
  rw [h]
  decide

/-- C2: in Range+Stay mode (departure window `[start, end]` at daily
granularity with a non-empty expanded stay set), `make_date_pairs` returns
exactly the pairs `(d, d+stay)` for every departure day `d` in the window
(outer loop, ascending) and every stay of the strictly ascending expanded
stay list (inner loop), silently dropping pairs whose return date falls
outside the optional return window. -/
theorem range_stay_pairs (cfg : Config) (today s e : ℕ)
    (hrl : cfg.rangeLength = none) (hs : cfg.departStart = some s) (he : cfg.departEnd = some e)
    (hne : expand_stay_durations cfg.maxStay ≠ []) :
    make_date_pairs cfg today
      = some (rangeStaySpecPairs s e (expand_stay_durations cfg.maxStay)
          cfg.returnStart cfg.returnEnd)
    ∧ (expand_stay_durations cfg.maxStay).Pairwise (· < ·) := by
  refine ⟨?_, expand_stay_durations_pairwise _⟩
  simp only [make_date_pairs, hrl, hs, he]
  simp only [Option.isSome_none, Bool.false_eq_true, false_and, if_false, Option.isSome_some,
    true_and, hne, ne_eq, not_false_iff, if_true, Option.getD_some]
  rw [rangeStayLoop_eq]
  rfl

/-- Witness for C2: departures 2025-06-01 through 2025-06-02 with stays
{3, 5} yield exactly the four pairs of the claim, in that order. -/
theorem range_stay_pairs_witness :
    exCfgRange.rangeLength = none
    ∧ exCfgRange.departStart = some (toOrdinal 2025 6 1)
    ∧ exCfgRange.departEnd = some (toOrdinal 2025 6 2)
    ∧ expand_stay_durations exCfgRange.maxStay ≠ []
    ∧ make_date_pairs exCfgRange 0
        = some [(toOrdinal 2025 6 1, toOrdinal 2025 6 4), (toOrdinal 2025 6 1, toOrdinal 2025 6 6),
            (toOrdinal 2025 6 2, toOrdinal 2025 6 5), (toOrdinal 2025 6 2, toOrdinal 2025 6 7)] := by
  refine ⟨rfl, rfl, rfl, by decide, ?_⟩
  have h := (range_stay_pairs exCfgRange 0 (toOrdinal 2025 6 1) (toOrdinal 2025 6 2)
    rfl rfl rfl (by decide)).1
  rw [h]
  decide

theorem filter_ok_iff (m : List (String × (Option ℕ × Option ℕ))) (t : ℕ) :
    (if m.isEmpty then true
     else match m.lookup (weekdayAbbrev t) with
       | none => false
       | some se => time_in_window (timeOfDay t) se.1 se.2) = true
    ↔ allowedSpec m t := by
  have htod : timeOfDay t < 86400 := Nat.mod_lt _ (by norm_num)
  unfold allowedSpec
  by_cases hm : m = []
  · subst hm; simp
  · rw [if_neg (by simpa [List.isEmpty_iff] using hm)]
    cases hl : m.lookup (weekdayAbbrev t) with
    | none =>
      constructor
      · intro h; cases h
      · rintro (rfl | ⟨se, hse, -⟩)
        · exact absurd rfl hm
        · cases hse
    | some se =>
      obtain ⟨so, eo⟩ := se
      cases so with
      | none =>
        constructor
        · intro _
          exact Or.inr ⟨(none, eo), rfl, Or.inl rfl⟩
        · intro _; rfl
      | some s =>
        cases eo with
        | none =>
          constructor
          · intro _
            exact Or.inr ⟨(some s, none), rfl, Or.inr (Or.inl rfl)⟩
          · intro _; rfl
        | some e =>
          simp only [time_in_window]
          by_cases hse : s ≤ e
          · rw [if_pos hse, decide_eq_true_iff]
            constructor
            · intro hw
              exact Or.inr ⟨(some s, some e), rfl,
                Or.inr (Or.inr ⟨s, e, rfl, rfl, by rw [if_pos hse]; exact hw⟩)⟩
            · rintro (hm' | ⟨se', hse', hcase⟩)
              · exact absurd hm' hm
              · injection hse' with hse''
                subst hse''
                rcases hcase with h1 | h2 | ⟨s', e', hs1, hs2, hif⟩
                · simp at h1
                · simp at h2
                · simp only [Option.some.injEq] at hs1 hs2
                  subst hs1; subst hs2
                  rw [if_pos hse] at hif
                  exact hif
          · rw [if_neg hse, decide_eq_true_iff]
            constructor
            · intro hw
              refine Or.inr ⟨(some s, some e), rfl, Or.inr (Or.inr ⟨s, e, rfl, rfl, ?_⟩)⟩
              rw [if_neg hse]
              rcases hw with h1 | h2
              · exact Or.inl ⟨h1, htod⟩
              · exact Or.inr h2
            · rintro (hm' | ⟨se', hse', hcase⟩)
              · exact absurd hm' hm
              · injection hse' with hse''
                subst hse''
                rcases hcase with h1 | h2 | ⟨s', e', hs1, hs2, hif⟩
                · simp at h1
                · simp at h2
                · simp only [Option.some.injEq] at hs1 hs2
                  subst hs1; subst hs2
                  rw [if_neg hse] at hif
                  rcases hif with ⟨hge, -⟩ | hle
                  · exact Or.inl hge
                  · exact Or.inr hle

/-- C5: a departure (resp. return) timestamp passes the day/time filter
exactly as the spec states: an empty filter map accepts everything; a weekday
absent from the map rejects; a present weekday with an absent bound accepts
at any time; with both bounds present the time of day must lie in
`[start, end]` when `start ≤ end`, and in `[start, 24:00) ∪ [00:00, end]`
when `start > end`, boundaries included. -/
theorem day_time_filter_spec (cfg : Config) (t : ℕ) :
    (depart_ok cfg t = true ↔ allowedSpec cfg.filterDepartDaysTime t)
    ∧ (return_ok cfg t = true ↔ allowedSpec cfg.filterReturnDaysTime t) := by
  constructor
  · unfold depart_ok
    exact filter_ok_iff _ t
  · unfold return_ok
    exact filter_ok_iff _ t

/-- Witness for C5: under the overnight Tuesday 22:00-02:00 window, Tuesday
23:30 and Tuesday 01:00 are allowed while Tuesday 10:00 is not. -/
theorem day_time_filter_spec_witness :
    allowedSpec exNightFilter exTue2330
    ∧ allowedSpec exNightFilter exTue0100
    ∧ ¬ allowedSpec exNightFilter exTue1000 := by
  refine ⟨?_, ?_, ?_⟩
  · exact (day_time_filter_spec exCfgNight exTue2330).1.mp (by decide)
  · exact (day_time_filter_spec exCfgNight exTue0100).1.mp (by decide)
  · intro h
    have h2 := (day_time_filter_spec exCfgNight exTue1000).1.mpr h
    exact absurd h2 (by decide)

theorem displayPass_ret_filter (cfg : Config) (F F' : DayFilter) (o : Offer)
    (h : cfg.oneWay = true) :
    displayPass { cfg with filterReturnDaysTime := F } o
      = displayPass { cfg with filterReturnDaysTime := F' } o := by
  simp only [displayPass, h, Bool.true_or]
  rfl

theorem display_loop_ret_filter (cfg : Config) (F F' : DayFilter) (h : cfg.oneWay = true) :
    ∀ (offers : List Offer) (seen : List (ℕ × Option ℕ × ℚ)),
      displayLoop { cfg with filterReturnDaysTime := F } offers seen
        = displayLoop { cfg with filterReturnDaysTime := F' } offers seen := by
  intro offers
  induction offers with
  | nil => intro seen; rfl
  | cons o rest ih =>
    intro seen
    simp only [displayLoop]
    rw [displayPass_ret_filter cfg F F' o h]
    have hk : offerSeenKey { cfg with filterReturnDaysTime := F } o
        = offerSeenKey { cfg with filterReturnDaysTime := F' } o := rfl
    rw [hk]
    split_ifs <;> rw [ih]

theorem preQueryOk_one_way (cfg : Config) (F F' : DayFilter) (d r r' : ℕ)
    (h : cfg.oneWay = true) :
    preQueryOk { cfg with filterReturnDaysTime := F } d r
      = preQueryOk { cfg with filterReturnDaysTime := F' } d r' := by
  simp only [preQueryOk, h, Bool.true_or]
  rfl

/-- C4: in one-way mode the return-day/time filter is never consulted — the
driver's pre-query check is independent of both the configured return filter
and the candidate return date, and the presenter renders the same offers
under any return filter — and a single-itinerary offer is judged purely on
its own outbound data (departure day/time filter and the two stopover
checks), never rejected for missing inbound itinerary data. -/
theorem one_way_skips_return_checks (cfg : Config) (F F' : DayFilter) (d r r' : ℕ)
    (offers : List Offer) (h : cfg.oneWay = true) :
    preQueryOk { cfg with filterReturnDaysTime := F } d r
        = preQueryOk { cfg with filterReturnDaysTime := F' } d r'
    ∧ display_offers { cfg with filterReturnDaysTime := F } offers
        = display_offers { cfg with filterReturnDaysTime := F' } offers
    ∧ ∀ (p : ℚ) (it : Itinerary),
        displayPass cfg { price := p, itineraries := [it] }
          = (depart_ok cfg it.segments.headI.depAt
              && stopovers_ok cfg it .departure && stopovers_ok cfg it .ret) := by
  refine ⟨preQueryOk_one_way cfg F F' d r r' h,
    display_loop_ret_filter cfg F F' h offers [], ?_⟩
  intro p it
  simp [displayPass, h, List.getLastI]

/-- Witness for C4: a concrete one-way configuration evaluated under two
different return filters and return dates gives identical pre-query and
presentation results. -/
theorem one_way_skips_return_checks_witness :
    exCfgOneWay.oneWay = true
    ∧ preQueryOk { exCfgOneWay with filterReturnDaysTime := exRetFilterF } 5 10
        = preQueryOk { exCfgOneWay with filterReturnDaysTime := exRetFilterG } 5 11
    ∧ display_offers { exCfgOneWay with filterReturnDaysTime := exRetFilterF } [exOneWayOffer]
        = display_offers { exCfgOneWay with filterReturnDaysTime := exRetFilterG } [exOneWayOffer] := by
  have h := one_way_skips_return_checks exCfgOneWay exRetFilterF exRetFilterG 5 10 11
    [exOneWayOffer] rfl
  exact ⟨rfl, h.1, h.2.1⟩

theorem displayLoop_sublist (cfg : Config) :
    ∀ (offers : List Offer) (seen : List (ℕ × Option ℕ × ℚ)),
      List.Sublist (displayLoop cfg offers seen) (offers.filter fun o => displayPass cfg o) := by
  intro offers
  induction offers with
  | nil => intro seen; simp [displayLoop]
  | cons o rest ih =>
    intro seen
    rw [displayLoop, List.filter_cons]
    by_cases hp : displayPass cfg o = true
    · rw [if_pos hp, if_pos hp]
      by_cases hk : offerSeenKey cfg o ∈ seen
      · rw [if_pos hk]
        exact (ih seen).trans (List.sublist_cons_self _ _)
      · rw [if_neg hk]
        exact (ih _).cons₂ o
    · rw [if_neg hp, if_neg hp]
      exact ih seen

theorem displayLoop_first (cfg : Config) :
    ∀ (offers : List Offer) (seen : List (ℕ × Option ℕ × ℚ)) (o' : Offer),
      o' ∈ displayLoop cfg offers seen →
        offerSeenKey cfg o' ∉ seen ∧
        (offers.filter fun o => displayPass cfg o).find?
          (fun x => decide (offerSeenKey cfg x = offerSeenKey cfg o')) = some o' := by
  intro offers
  induction offers with
  | nil => intro seen o' h; simp [displayLoop] at h
  | cons o rest ih =>
    intro seen o' h
    rw [displayLoop] at h
    rw [List.filter_cons]
    by_cases hp : displayPass cfg o = true
    · rw [if_pos hp] at h
      rw [if_pos hp]
      by_cases hk : offerSeenKey cfg o ∈ seen
      · rw [if_pos hk] at h
        obtain ⟨hns, hfind⟩ := ih seen o' h
        have hne : offerSeenKey cfg o ≠ offerSeenKey cfg o' := fun he => hns (he ▸ hk)
        refine ⟨hns, ?_⟩
        rw [List.find?_cons, decide_eq_false hne]
        exact hfind
      · rw [if_neg hk] at h
        rcases List.mem_cons.mp h with rfl | hmem
        · refine ⟨hk, ?_⟩
          rw [List.find?_cons, decide_eq_true rfl]
        · obtain ⟨hns, hfind⟩ := ih _ o' hmem
          have hne : offerSeenKey cfg o ≠ offerSeenKey cfg o' :=
            fun he => hns (by rw [← he]; exact List.mem_cons_self _ _)
          refine ⟨fun hs => hns (List.mem_cons_of_mem _ hs), ?_⟩
          rw [List.find?_cons, decide_eq_false hne]
          exact hfind
    · rw [if_neg hp] at h
      rw [if_neg hp]
      exact ih seen o' h

theorem displayLoop_nodup (cfg : Config) :
    ∀ (offers : List Offer) (seen : List (ℕ × Option ℕ × ℚ)),
      ((displayLoop cfg offers seen).map (offerSeenKey cfg)).Nodup := by
  intro offers
  induction offers with
  | nil => intro seen; simp [displayLoop]
  | cons o rest ih =>
    intro seen
    rw [displayLoop]
    by_cases hp : displayPass cfg o = true
    · rw [if_pos hp]
      by_cases hk : offerSeenKey cfg o ∈ seen
      · rw [if_pos hk]; exact ih seen
      · rw [if_neg hk]
        rw [List.map_cons, List.nodup_cons]
        refine ⟨?_, ih _⟩
        intro hmem
        obtain ⟨x, hx, hkx⟩ := List.mem_map.mp hmem
        have := (displayLoop_first cfg rest (offerSeenKey cfg o :: seen) x hx).1
        exact this (by rw [hkx]; exact List.mem_cons_self _ _)
    · rw [if_neg hp]; exact ih seen

theorem displayLoop_covers (cfg : Config) :
    ∀ (offers : List Offer) (seen : List (ℕ × Option ℕ × ℚ)) (o : Offer),
      o ∈ offers → displayPass cfg o = true →
        offerSeenKey cfg o ∈ seen ∨
        ∃ o' ∈ displayLoop cfg offers seen, offerSeenKey cfg o' = offerSeenKey cfg o := by
  intro offers
  induction offers with
  | nil => intro seen o h; cases h
  | cons a rest ih =>
    intro seen o hmem hp
    rw [displayLoop]
    by_cases hpa : displayPass cfg a = true
    · rw [if_pos hpa]
      by_cases hka : offerSeenKey cfg a ∈ seen
      · rw [if_pos hka]
        rcases List.mem_cons.mp hmem with rfl | hmem'
        · exact Or.inl hka
        · exact ih seen o hmem' hp
      · rw [if_neg hka]
        rcases List.mem_cons.mp hmem with rfl | hmem'
        · exact Or.inr ⟨o, List.mem_cons_self _ _, rfl⟩
        · rcases ih (offerSeenKey cfg a :: seen) o hmem' hp with hseen | ⟨o', ho', hk⟩
          · rcases List.mem_cons.mp hseen with heq | hseen'
            · exact Or.inr ⟨a, List.mem_cons_self _ _, heq.symm⟩
            · exact Or.inl hseen'
          · exact Or.inr ⟨o', List.mem_cons_of_mem _ ho', hk⟩
    · rw [if_neg hpa]
      rcases List.mem_cons.mp hmem with rfl | hmem'
      · exact absurd hp hpa
      · exact ih seen o hmem' hp

/-- C9: within one presentation call the rendered offers have pairwise
distinct deduplication keys, form a subsequence of the offers passing all
filters, cover every key of a passing offer, and each rendered offer is the
first passing offer of its key in input order; and a call appended to a
sequence of presentation calls renders exactly what it would render alone
(the seen-key set is re-initialised per call). -/
theorem display_offers_dedup (cfg : Config) (offers : List Offer) :
    ((display_offers cfg offers).map (offerSeenKey cfg)).Nodup
    ∧ List.Sublist (display_offers cfg offers) (offers.filter fun o => displayPass cfg o)
    ∧ (∀ o ∈ offers, displayPass cfg o = true →
        ∃ o' ∈ display_offers cfg offers, offerSeenKey cfg o' = offerSeenKey cfg o)
    ∧ (∀ o' ∈ display_offers cfg offers,
        (offers.filter fun o => displayPass cfg o).find?
          (fun x => decide (offerSeenKey cfg x = offerSeenKey cfg o')) = some o')
    ∧ (∀ (calls : List (List Offer)) (call : List Offer),
        presentation_calls cfg (calls ++ [call])
          = presentation_calls cfg calls ++ [display_offers cfg call]) := by
  refine ⟨displayLoop_nodup cfg offers [], displayLoop_sublist cfg offers [], ?_, ?_, ?_⟩
  · intro o hmem hp
    rcases displayLoop_covers cfg offers [] o hmem hp with hseen | h
    · cases hseen
    · exact h
  · intro o' h
    exact (displayLoop_first cfg offers [] o' h).2
  · intro calls call
    simp [presentation_calls]

/-- Witness for C9: of three passing offers where the second duplicates the
first one's key, exactly the first and third are rendered, with distinct
keys. -/
theorem display_offers_dedup_witness :
    display_offers exCfgDedup exDedupOffers = [exRtOffer, exRtOffer2]
    ∧ ((display_offers exCfgDedup exDedupOffers).map (offerSeenKey exCfgDedup)).Nodup := by
  refine ⟨by decide, (display_offers_dedup exCfgDedup exDedupOffers).1⟩

end FlightSearch
